import Mathlib

/-!
Shallow embedding of the asynchronous protocol bridge of the
renode-vscode-extension repository: the GDB/MI client (`MI2` in
`src/debug/mi2.ts`), its output parser front end, and the two
session-protocol clients (`RenodeProxySession`, `RenodeHypervisorSession`).
Each definition is translated from the TypeScript source; theorems settle
the specification's claims against these definitions.
-/

namespace Renode

/-! ## Count-condition handling in `MI2.addBreakPoint`

The source builds an MI location string from `breakpoint.countCondition`:

    if (breakpoint.countCondition) {
      if (breakpoint.countCondition[0] == '>') {
        location += '-i ' + numRegex.exec(breakpoint.countCondition.substring(1))![0] + ' ';
      } else {
        const match = numRegex.exec(breakpoint.countCondition)![0];
        if (match.length != breakpoint.countCondition.length) {
          this.log('stderr', "Unsupported break count expression: ...");
          location += '-t ';
        } else if (parseInt(match) != 0) {
          location += '-t -i ' + parseInt(match) + ' ';
        }
      }
    }

with `numRegex = /\d+/`.  `exec` returns the first maximal digit run found
anywhere in the string, or null; the non-null assertion `!` is a runtime
TypeError when no digit occurs.
-/

/-- First maximal run of decimal digits in a character list: the JS regex
`/\d+/` as applied by `exec`; `none` when no digit occurs. -/
def firstDigitRun : List Char → Option (List Char)
  | [] => none
  | c :: cs =>
    if c.isDigit then some (c :: cs.takeWhile Char.isDigit) else firstDigitRun cs

/-- `numRegex.exec(s)?.[0]` for `numRegex = /\d+/`. -/
def numRegexExec (s : String) : Option String :=
  (firstDigitRun s.data).map List.asString

/-- `parseInt` on a run of decimal digits. -/
def digitsToNat (l : List Char) : Nat :=
  l.foldl (fun n c => n * 10 + (c.toNat - '0'.toNat)) 0

/-- The `location` text contributed by the count-condition block of
`MI2.addBreakPoint`, paired with whether the "Unsupported break count
expression" warning was logged.  `none` models the TypeError thrown by the
non-null assertion on `numRegex.exec(...)` when the string holds no digit
(falsy `countCondition`, the empty string, skips the block). -/
def countConditionFlags (cc : String) : Option (String × Bool) :=
  match cc.data with
  | [] => some ("", false)
  | c :: rest =>
    if c = '>' then
      match firstDigitRun rest with
      | some m => some ("-i " ++ m.asString ++ " ", false)
      | none => none
    else
      match firstDigitRun (c :: rest) with
      | none => none
      | some m =>
        if m.length ≠ (c :: rest).length then some ("-t ", true)
        else if digitsToNat m ≠ 0 then
          some ("-t -i " ++ toString (digitsToNat m) ++ " ", false)
        else some ("", false)

/-! ## Result-record handling in `MI2.sendCommand`

    this.handlers[sel] = (node: MINode) => {
      if (node && node.resultRecords && node.resultRecords.resultClass === 'error') {
        if (suppressFailure) {
          this.log('stderr', `WARNING: Error executing command '${command}'`);
          resolve(node);
        } else {
          reject(new MIError(node.result('msg') || 'Internal error', command));
        }
      } else {
        resolve(node);
      }
    };
-/

/-- The part of a parsed `MINode` that `MI2.sendCommand`'s handler inspects:
`resultClass = none` models a node with no `resultRecords`; `msg` is the
`msg` field of the result record when present. -/
structure MINodeView where
  resultClass : Option String
  msg : Option String
deriving DecidableEq

/-- What the completion handler of `MI2.sendCommand` does with the node it is
fired with: resolve the future, resolve it after logging the warning, or
reject it with `MIError(message, command)`. -/
inductive HandlerOutcome where
  | resolved (node : MINodeView)
  | resolvedWithWarning (node : MINodeView)
  | rejected (msg : String) (command : String)
deriving DecidableEq

/-- The completion handler `MI2.sendCommand` registers for its token. -/
def sendCommandHandler (command : String) (suppressFailure : Bool)
    (node : MINodeView) : HandlerOutcome :=
  if node.resultClass = some "error" then
    if suppressFailure then .resolvedWithWarning node
    else .rejected (node.msg.getD "Internal error") command
  else .resolved node

/-! ## Session-protocol request envelope

`RenodeProxySession.sendSessionRequest` and
`RenodeHypervisorSession.sendHypervisorRequest` share this logic:

    const msg = { ...req, version: '0.0.1' };
    if (this.socketReady) {
      const res = await this.sendInner(JSON.stringify(msg));
      const obj: any = tryJsonParse(res);
      if (!obj?.status || obj.status !== 'success') { throw new Error(obj.error); }
      return obj.data;
    } else {
      throw new Error('Not connected');
    }
-/

structure SessionRequest where
  action : String
  payload : Option String
deriving DecidableEq

/-- The JSON envelope written to the transport. -/
structure WireEnvelope where
  action : String
  payload : Option String
  version : String
deriving DecidableEq

/-- The response envelope as the client reads it. -/
structure SessionResponse where
  status : Option String
  data : String
  error : Option String
deriving DecidableEq

/-- How a session-protocol request ends for its caller. -/
inductive ReqOutcome where
  | ok (data : String)
  | errRemote (msg : Option String)
  | errNotConnected
deriving DecidableEq

/-- `RenodeProxySession.sendSessionRequest`, given the socket state and the
response the transport will deliver for this request: the envelope sent (none
when nothing is written) and the caller's outcome. -/
def sendSessionRequest (socketOpen : Bool) (req : SessionRequest)
    (rsp : SessionResponse) : Option WireEnvelope × ReqOutcome :=
  if socketOpen then
    (some ⟨req.action, req.payload, "0.0.1"⟩,
      if rsp.status = some "success" then .ok rsp.data else .errRemote rsp.error)
  else (none, .errNotConnected)

/-- `RenodeHypervisorSession.sendHypervisorRequest`: textually the same
request logic as `sendSessionRequest`. -/
def sendHypervisorRequest (socketOpen : Bool) (req : SessionRequest)
    (rsp : SessionResponse) : Option WireEnvelope × ReqOutcome :=
  if socketOpen then
    (some ⟨req.action, req.payload, "0.0.1"⟩,
      if rsp.status = some "success" then .ok rsp.data else .errRemote rsp.error)
  else (none, .errNotConnected)

/-! ## Stop-reason dispatch in `MI2.onOutput`

For an out-of-band record with `record.type == 'exec'` and
`record.asyncClass == 'stopped'`, the source dispatches on
`parsed.record('reason')` (a `switch` with fall-through groups).
-/

/-- What the `stopped` branch of `MI2.onOutput` does: the event it emits,
whether `logMessage.logMsgProcess` runs (only for `breakpoint-hit`), and the
log line it writes, if any. -/
structure StopDispatch where
  event : String
  logMsgCheck : Bool
  logged : Option String
deriving DecidableEq

/-- The `reason` dispatch of the `asyncClass == 'stopped'` branch of
`MI2.onOutput`; `exitCode` is `parsed.record('exit-code')` (string concat of
a missing field prints `undefined` in JS). -/
def stopReasonDispatch (reason : Option String) (exitCode : Option String) :
    StopDispatch :=
  match reason with
  | none => ⟨"step-other", false, none⟩
  | some r =>
    if r = "breakpoint-hit" then ⟨"breakpoint", true, none⟩
    else if r = "watchpoint-trigger" then ⟨"watchpoint", false, none⟩
    else if r = "read-watchpoint-trigger" then ⟨"watchpoint", false, none⟩
    else if r = "access-watchpoint-trigger" then ⟨"watchpoint", false, none⟩
    else if r = "function-finished" then ⟨"step-end", false, none⟩
    else if r = "location-reached" then ⟨"step-end", false, none⟩
    else if r = "end-stepping-range" then ⟨"step-end", false, none⟩
    else if r = "watchpoint-scope" then ⟨"step-end", false, none⟩
    else if r = "solib-event" then ⟨"step-end", false, none⟩
    else if r = "syscall-entry" then ⟨"step-end", false, none⟩
    else if r = "syscall-return" then ⟨"step-end", false, none⟩
    else if r = "fork" then ⟨"step-end", false, none⟩
    else if r = "vfork" then ⟨"step-end", false, none⟩
    else if r = "exec" then ⟨"step-end", false, none⟩
    else if r = "signal-received" then ⟨"signal-stop", false, none⟩
    else if r = "exited-normally" then ⟨"exited-normally", false, none⟩
    else if r = "exited" then
      ⟨"exited-normally", false,
        some ("Program exited with code " ++ exitCode.getD "undefined")⟩
    else
      ⟨"stopped", false,
        some ("Not implemented stop reason (assuming exception): " ++ r)⟩

/-! ## `MI2.clearBreakPoints`

    const breakpoints = this.breakpoints;
    this.breakpoints = new Map();
    breakpoints.forEach((k, index) => {
      if (index.file === source) {
        promises.push(this.sendCommand('break-delete ' + k).then(...));
      } else {
        this.breakpoints.set(index, k);
      }
    });

A JS `Map` iterates in insertion order; the table is modeled as an ordered
association list from breakpoint keys to backend numbers.
-/

/-- The caller-side breakpoint key stored in `MI2.breakpoints`. -/
structure Breakpoint where
  file : Option String
  line : Nat
  raw : Option String
  condition : Option String
deriving DecidableEq

/-- `MI2.clearBreakPoints source`: the breakpoint table after the call and
the MI commands issued, in order. -/
def clearBreakPoints (table : List (Breakpoint × Nat)) (source : Option String) :
    List (Breakpoint × Nat) × List String :=
  table.foldl
    (fun acc e =>
      if e.1.file = source then (acc.1, acc.2 ++ ["break-delete " ++ toString e.2])
      else (acc.1 ++ [e], acc.2))
    ([], [])

theorem clearBreakPoints_foldl (table : List (Breakpoint × Nat))
    (source : Option String) (acc : List (Breakpoint × Nat) × List String) :
    table.foldl
      (fun acc e =>
        if e.1.file = source then (acc.1, acc.2 ++ ["break-delete " ++ toString e.2])
        else (acc.1 ++ [e], acc.2))
      acc =
    (acc.1 ++ table.filter (fun e => decide ¬(e.1.file = source)),
     acc.2 ++ (table.filter (fun e => decide (e.1.file = source))).map
       (fun e => "break-delete " ++ toString e.2)) := by
  induction table generalizing acc with
  | nil => simp
  | cons e t ih =>
    by_cases h : e.1.file = source <;>
      simp [List.foldl_cons, h, ih, List.filter_cons]

end Renode

/-- C10: `clearBreakPoints s` issues a `break-delete` command exactly for the
table entries whose `file` equals `s` (in table order), and every entry whose
`file` differs from `s` is kept in the new table, in order, with its backend
id unchanged and no command issued for it. -/
theorem Renode.clearBreakPoints_frame (table : List (Breakpoint × Nat))
    (source : Option String) :
    clearBreakPoints table source =
      (table.filter (fun e => decide ¬(e.1.file = source)),
       (table.filter (fun e => decide (e.1.file = source))).map
         (fun e => "break-delete " ++ toString e.2)) := by
  simpa using clearBreakPoints_foldl table source ([], [])

/-- C4 (code behavior at the claim's inputs): `">3"` yields the ignore-count
text `-i 3 ` with no temporary flag and no warning; `"2"` yields `-t -i 2 `;
a digit-containing but not purely numeric string such as `"2x"` logs the
warning and falls back to `-t `; but `"abc"`, which holds no digit, makes
`numRegex.exec` return null and the non-null assertion throw a TypeError
(modeled `none`) instead of warning and falling back. -/
theorem Renode.countCondition_cases :
    countConditionFlags ">3" = some ("-i 3 ", false) ∧
    countConditionFlags "2" = some ("-t -i 2 ", false) ∧
    countConditionFlags "2x" = some ("-t ", true) ∧
    countConditionFlags "abc" = none := by
  refine ⟨?_, ?_, ?_, ?_⟩ <;> decide

/-- C5: for every MI result node, if its result class is `error` then with
`suppressFailure = true` the handler resolves the future with that very node
after logging a warning, and with `suppressFailure = false` it rejects with
an error carrying the backend `msg` (defaulted to `Internal error`) together
with the offending command text; a node of any other class always resolves
the future. -/
theorem Renode.sendCommand_error_handling (command : String) (node : MINodeView) :
    (node.resultClass = some "error" →
      sendCommandHandler command true node = .resolvedWithWarning node ∧
      sendCommandHandler command false node =
        .rejected (node.msg.getD "Internal error") command) ∧
    (node.resultClass ≠ some "error" →
      ∀ suppressFailure, sendCommandHandler command suppressFailure node =
        .resolved node) := by
  constructor
  · intro h
    constructor <;> simp [sendCommandHandler, h]
  · intro h suppressFailure
    simp [sendCommandHandler, h]

/-- C6: with the socket open, one JSON envelope extending the request with
version `0.0.1` is written; a response whose status is `success` resolves the
future with the response's `data` field, any other status rejects with an
error carrying the backend-supplied `error` string; with the socket not open
the request fails with `Not connected` and nothing is written.  The
hypervisor variant behaves identically. -/
theorem Renode.sessionRequest_contract (req : SessionRequest) (rsp : SessionResponse) :
    (sendSessionRequest true req rsp).1 = some ⟨req.action, req.payload, "0.0.1"⟩ ∧
    (rsp.status = some "success" →
      (sendSessionRequest true req rsp).2 = .ok rsp.data) ∧
    (rsp.status ≠ some "success" →
      (sendSessionRequest true req rsp).2 = .errRemote rsp.error) ∧
    sendSessionRequest false req rsp = (none, .errNotConnected) ∧
    (∀ socketOpen, sendHypervisorRequest socketOpen req rsp =
      sendSessionRequest socketOpen req rsp) := by
  refine ⟨rfl, fun h => ?_, fun h => ?_, rfl, fun _ => rfl⟩ <;>
    simp [sendSessionRequest, h]

/-- C7 (counterexample): the stop reason `fork` is not one of the reasons the
claim enumerates, so the claim requires it to be logged and to yield the
generic `stopped` event; the code instead emits `step-end` and logs
nothing. -/
theorem Renode.stopDispatch_fork_counterexample :
    stopReasonDispatch (some "fork") none =
      ⟨"step-end", false, none⟩ ∧
    (stopReasonDispatch (some "fork") none).event ≠ "stopped" ∧
    (stopReasonDispatch (some "fork") none).logged = none := by
  refine ⟨rfl, ?_, rfl⟩
  decide

/-- C7 (amended): the dispatch is as the claim states, except that the
reasons `watchpoint-scope`, `solib-event`, `syscall-entry`, `syscall-return`,
`fork`, `vfork` and `exec` also yield a step-end event (with no log); only a
reason outside all of these is logged and yields the generic `stopped`
event, and a record with no reason yields a step-other event. -/
theorem Renode.stopDispatch_classification (r : String) (ec : Option String) :
    stopReasonDispatch none ec = ⟨"step-other", false, none⟩ ∧
    stopReasonDispatch (some "breakpoint-hit") ec = ⟨"breakpoint", true, none⟩ ∧
    (r ∈ ["watchpoint-trigger", "read-watchpoint-trigger",
          "access-watchpoint-trigger"] →
      stopReasonDispatch (some r) ec = ⟨"watchpoint", false, none⟩) ∧
    (r ∈ ["end-stepping-range", "location-reached", "function-finished",
          "watchpoint-scope", "solib-event", "syscall-entry", "syscall-return",
          "fork", "vfork", "exec"] →
      stopReasonDispatch (some r) ec = ⟨"step-end", false, none⟩) ∧
    stopReasonDispatch (some "signal-received") ec = ⟨"signal-stop", false, none⟩ ∧
    stopReasonDispatch (some "exited-normally") ec =
      ⟨"exited-normally", false, none⟩ ∧
    stopReasonDispatch (some "exited") ec =
      ⟨"exited-normally", false,
        some ("Program exited with code " ++ ec.getD "undefined")⟩ ∧
    (r ∉ ["breakpoint-hit", "watchpoint-trigger", "read-watchpoint-trigger",
          "access-watchpoint-trigger", "function-finished", "location-reached",
          "end-stepping-range", "watchpoint-scope", "solib-event",
          "syscall-entry", "syscall-return", "fork", "vfork", "exec",
          "signal-received", "exited-normally", "exited"] →
      stopReasonDispatch (some r) ec =
        ⟨"stopped", false,
          some ("Not implemented stop reason (assuming exception): " ++ r)⟩) := by
  refine ⟨rfl, rfl, fun h => ?_, fun h => ?_, rfl, rfl, rfl, fun h => ?_⟩
  · simp only [List.mem_cons, List.not_mem_nil, or_false] at h
    rcases h with h | h | h <;> subst h <;> rfl
  · simp only [List.mem_cons, List.not_mem_nil, or_false] at h
    rcases h with h | h | h | h | h | h | h | h | h | h <;> subst h <;> rfl
  · simp only [List.mem_cons, List.not_mem_nil, or_false, not_or] at h
    obtain ⟨h1, h2, h3, h4, h5, h6, h7, h8, h9, h10, h11, h12, h13, h14,
      h15, h16, h17⟩ := h
    simp [stopReasonDispatch, h1, h2, h3, h4, h5, h6, h7, h8, h9, h10, h11,
      h12, h13, h14, h15, h16, h17]

namespace Renode

/-! ## Session-protocol concurrency

`RenodeProxySession` keeps one FIFO `requestQueue` of response callbacks;
`sendInner` pushes the caller's callback and sends at once, `onData` shifts
and resolves the oldest callback, `onError` shifts and fails one, and
`onClose` shifts and fails every queued callback:

    private onData(data: string) { this.requestQueue.shift()?.(data); }
    private onError() { this.requestQueue.shift()?.(undefined, new Error('WebSocket error')); }
    private onClose() {
      while (this.requestQueue.length) {
        this.requestQueue.shift()?.(undefined, new Error('WebSocket closed'));
      }
      ...
    }

`RenodeHypervisorSession` keeps a single `pendingRequest` slot plus a queue
of empty callbacks (`waitForCurrentRequest`); `onData`/`onError`/`onClose`
settle only the pending request, whose end callback then releases the head
waiter; the released waiter re-runs the tail of `sendInner` (the socket
object is still non-null) and installs itself as the new pending request:

    private onClose() {
      this.pendingRequest?._onError('WebSocket closed');
      this.pendingRequest = undefined;
      ...
    }

Callers are named by ids; an outcome records how a caller's future settles.
-/

/-- How a session-protocol caller's future settles. -/
inductive SessionOutcome where
  | resolvedData (id : Nat) (data : String)
  | failed (id : Nat) (msg : String)
deriving DecidableEq

/-- `RenodeProxySession`: the callback queue (oldest first) and whether the
socket is open. -/
structure ProxyState where
  queue : List Nat
  socketOpen : Bool
deriving DecidableEq

/-- `sendSessionRequest`/`sendInner` for caller `id`: new state, outcomes
settled at once, and the ids whose envelope was written to the socket. -/
def proxySubmit (s : ProxyState) (id : Nat) :
    ProxyState × List SessionOutcome × List Nat :=
  if s.socketOpen then ({ s with queue := s.queue ++ [id] }, [], [id])
  else (s, [.failed id "Not connected"], [])

/-- `RenodeProxySession.onData`. -/
def proxyOnData (s : ProxyState) (d : String) :
    ProxyState × List SessionOutcome :=
  match s.queue with
  | [] => (s, [])
  | i :: rest => ({ s with queue := rest }, [.resolvedData i d])

/-- `RenodeProxySession.onError`. -/
def proxyOnError (s : ProxyState) : ProxyState × List SessionOutcome :=
  match s.queue with
  | [] => (s, [])
  | i :: rest => ({ s with queue := rest }, [.failed i "WebSocket error"])

/-- `RenodeProxySession.onClose`: drain the whole queue, failing every
caller; the socket is closed from here on. -/
def proxyOnClose (s : ProxyState) : ProxyState × List SessionOutcome :=
  (⟨[], false⟩, s.queue.map (fun i => .failed i "WebSocket closed"))

/-- A batch of responses delivered back-to-back: `onData` once per datum, in
arrival order. -/
def proxyOnDataAll (s : ProxyState) : List String → ProxyState × List SessionOutcome
  | [] => (s, [])
  | d :: ds =>
    let r := proxyOnData s d
    let r2 := proxyOnDataAll r.1 ds
    (r2.1, r.2 ++ r2.2)

/-- `RenodeHypervisorSession`: the single pending-request slot, the FIFO
queue of waiters parked in `waitForCurrentRequest`, and the socket state. -/
structure HvState where
  pending : Option Nat
  waitQueue : List Nat
  socketOpen : Bool
deriving DecidableEq

/-- `sendHypervisorRequest`/`sendInner` for caller `id`: with the socket
open, the caller either becomes the pending request (its envelope is sent)
or parks in the wait queue (nothing sent yet); with the socket not open the
request fails fast. -/
def hvSubmit (s : HvState) (id : Nat) :
    HvState × List SessionOutcome × List Nat :=
  if s.socketOpen then
    match s.pending with
    | none => ({ s with pending := some id }, [], [id])
    | some _ => ({ s with waitQueue := s.waitQueue ++ [id] }, [], [])
  else (s, [.failed id "Not connected"], [])

/-- `RenodeHypervisorSession.onData`: resolve the pending request; its end
callback shifts the wait queue, releasing exactly the head waiter (third
component). -/
def hvOnData (s : HvState) (d : String) :
    HvState × List SessionOutcome × List Nat :=
  match s.pending with
  | none => (s, [], [])
  | some i =>
    match s.waitQueue with
    | [] => ({ s with pending := none }, [.resolvedData i d], [])
    | w :: rest =>
      ({ s with pending := none, waitQueue := rest }, [.resolvedData i d], [w])

/-- `RenodeHypervisorSession.onClose`: fail only the pending request and
release the head waiter; the socket is closed from here on. -/
def hvOnClose (s : HvState) : HvState × List SessionOutcome × List Nat :=
  match s.pending with
  | none => (⟨none, s.waitQueue, false⟩, [], [])
  | some i =>
    match s.waitQueue with
    | [] => (⟨none, [], false⟩, [.failed i "WebSocket closed"], [])
    | w :: rest => (⟨none, rest, false⟩, [.failed i "WebSocket closed"], [w])

/-- A waiter released from the wait queue resumes inside `sendInner`: the
socket object is non-null, so it installs itself as the pending request and
sends its envelope, whatever state the socket is in. -/
def hvResumeWaiter (s : HvState) (w : Nat) : HvState × List Nat :=
  ({ s with pending := some w }, [w])

theorem proxyOnDataAll_fifo (ds : List String) (q : List Nat) (op : Bool) :
    proxyOnDataAll ⟨q, op⟩ ds =
      (⟨q.drop ds.length, op⟩,
       (q.zip ds).map (fun x => .resolvedData x.1 x.2)) := by
  induction ds generalizing q with
  | nil => simp [proxyOnDataAll]
  | cons d ds ih =>
    cases q with
    | nil => simp [proxyOnDataAll, proxyOnData, ih]
    | cons i rest => simp [proxyOnDataAll, proxyOnData, ih]

end Renode

/-- C2 (counterexample): hypervisor session with request 1 in flight and
request 2 queued when the transport closes: only 1 is failed with the
transport error; 2 gets no outcome at all — it is merely released, resumes
`sendInner` on the closed socket, and installs itself as the new pending
request, whose future no transport event will ever settle. -/
theorem Renode.hvClose_queued_request_not_failed :
    (hvOnClose ⟨some 1, [2], true⟩).2.1 = [.failed 1 "WebSocket closed"] ∧
    (∀ m, SessionOutcome.failed 2 m ∉ (hvOnClose ⟨some 1, [2], true⟩).2.1) ∧
    (hvOnClose ⟨some 1, [2], true⟩).2.2 = [2] ∧
    hvResumeWaiter (hvOnClose ⟨some 1, [2], true⟩).1 2 =
      (⟨some 2, [], false⟩, [2]) := by
  refine ⟨rfl, ?_, rfl, rfl⟩
  intro m h
  simp [hvOnClose] at h

/-- C2 (amended): when the proxy-session transport closes, every queued and
in-flight request is failed with the transport error and the queue is left
empty; the hypervisor session instead fails only the in-flight request and
merely releases the head queued waiter without failing it; on both, requests
submitted while the socket is not open fail fast with `Not connected` and
write nothing. -/
theorem Renode.transportClose_failure_propagation (q q' : List Nat)
    (hv : HvState) (id p w : Nat) (rest : List Nat) :
    proxyOnClose ⟨q, true⟩ =
      (⟨[], false⟩, q.map (fun i => .failed i "WebSocket closed")) ∧
    proxySubmit ⟨q', false⟩ id = (⟨q', false⟩, [.failed id "Not connected"], []) ∧
    (hv.pending = some p → hv.waitQueue = w :: rest →
      hvOnClose hv = (⟨none, rest, false⟩, [.failed p "WebSocket closed"], [w])) ∧
    (hv.pending = some p → hv.waitQueue = [] →
      hvOnClose hv = (⟨none, [], false⟩, [.failed p "WebSocket closed"], [])) ∧
    (hv.socketOpen = false →
      hvSubmit hv id = (hv, [.failed id "Not connected"], [])) := by
  refine ⟨rfl, rfl, fun h1 h2 => ?_, fun h1 h2 => ?_, fun h => ?_⟩
  · simp [hvOnClose, h1, h2]
  · simp [hvOnClose, h1, h2]
  · simp [hvSubmit, h]

/-- C3 (counterexample): on the proxy session, caller 1 submits and its
envelope is sent at once; caller 2 then submits while 1 is still awaiting
its response, and 2's envelope is also sent at once — two requests are in
flight on the socket at the same time, so at most-one-in-flight fails. -/
theorem Renode.proxy_two_requests_in_flight :
    (proxySubmit ⟨[], true⟩ 1).2.2 = [1] ∧
    (proxySubmit (proxySubmit ⟨[], true⟩ 1).1 2).2.2 = [2] ∧
    (proxySubmit (proxySubmit ⟨[], true⟩ 1).1 2).1.queue = [1, 2] := by
  refine ⟨rfl, rfl, rfl⟩

/-- C3 (amended): completions respect submission order on both clients.  The
proxy session may have many requests in flight but resolves any batch of
responses strictly FIFO: the k-th datum of a batch resolves the k-th oldest
queued caller.  The hypervisor session enforces at most one in-flight
request: a caller submitting while one is pending is queued FIFO with
nothing sent, the active request's response resolves it and releases exactly
the head waiter, and only then does that waiter send and become pending. -/
theorem Renode.session_fifo_ordering (q : List Nat) (op : Bool)
    (ds : List String) (hv : HvState) (id p w : Nat) (d : String)
    (rest : List Nat) (a b : Nat) :
    proxyOnDataAll ⟨q, op⟩ ds =
      (⟨q.drop ds.length, op⟩,
       (q.zip ds).map (fun x => .resolvedData x.1 x.2)) ∧
    (hv.socketOpen = true → hv.pending = some p →
      hvSubmit hv id = ({ hv with waitQueue := hv.waitQueue ++ [id] }, [], [])) ∧
    (hv.socketOpen = true → hv.pending = none →
      hvSubmit hv id = ({ hv with pending := some id }, [], [id])) ∧
    (hv.pending = some p → hv.waitQueue = w :: rest →
      hvOnData hv d = ({ hv with pending := none, waitQueue := rest },
        [.resolvedData p d], [w])) ∧
    (hvSubmit ⟨none, [], true⟩ a = (⟨some a, [], true⟩, [], [a]) ∧
     hvSubmit ⟨some a, [], true⟩ b = (⟨some a, [b], true⟩, [], []) ∧
     hvOnData ⟨some a, [b], true⟩ d = (⟨none, [], true⟩, [.resolvedData a d], [b]) ∧
     hvResumeWaiter ⟨none, [], true⟩ b = (⟨some b, [], true⟩, [b])) := by
  refine ⟨proxyOnDataAll_fifo ds q op, fun h1 h2 => ?_, fun h1 h2 => ?_,
    fun h1 h2 => ?_, rfl, rfl, rfl, rfl⟩
  · simp [hvSubmit, h1, h2]
  · simp [hvSubmit, h1, h2]
  · simp [hvOnData, h1, h2]

namespace Renode

/-! ## MI output classification and buffering

    const nonOutput = /^(?:\d*|undefined)[\*\+\=]|[\~\@\&\^]/;
    const gdbMatch = /(?:\d*|undefined)\(gdb\)/;

    function couldBeOutput(line: string) {
      if (nonOutput.exec(line)) { return false; }
      return true;
    }

The first alternative of `nonOutput` is anchored at the start of the line;
the second (one of the four characters) is not, so it matches the character
anywhere in the line.  `gdbMatch` is entirely unanchored, and since its
leading group may match the empty string it fires exactly when the line
contains the text of the GDB prompt somewhere.

    stdout(data) {
      this.buffer += data;
      const end = this.buffer.lastIndexOf('\n');
      if (end != -1) {
        this.onOutput(this.buffer.substring(0, end));
        this.buffer = this.buffer.substring(end + 1);
      }
      if (this.buffer.length) {
        if (this.onOutputPartial(this.buffer)) { this.buffer = ''; }
      }
    }

`onOutput` splits its argument on newlines and handles each line;
`onOutputPartial` returns true (and logs the text without a newline) exactly
when the partial line could be console output, in which case `stdout` clears
the buffer instead of retaining the partial line.
-/

/-- The characters of the literal alternative `undefined`. -/
def undefinedChars : List Char := ['u', 'n', 'd', 'e', 'f', 'i', 'n', 'e', 'd']

/-- Does the list start with one of the record marks `*`, `+`, `=`? -/
def headIsRecordMark : List Char → Bool
  | [] => false
  | c :: _ => c = '*' || c = '+' || c = '='

/-- `nonOutput.exec(line) != null`: the anchored `(?:\d*|undefined)[\*\+\=]`
alternative (backtracking over the digit run never helps, since a digit is
not a record mark), or one of `~ @ & ^` anywhere in the line. -/
def jsNonOutputTest (l : List Char) : Bool :=
  headIsRecordMark (l.dropWhile Char.isDigit) ||
  (undefinedChars.isPrefixOf l && headIsRecordMark (l.drop undefinedChars.length)) ||
  l.any (fun c => c = '~' || c = '@' || c = '&' || c = '^')

/-- `couldBeOutput`. -/
def couldBeOutput (l : List Char) : Bool :=
  !jsNonOutputTest l

/-- `gdbMatch.exec(line) != null`: the GDB prompt text occurs somewhere. -/
def hasGdbPrompt : List Char → Bool
  | [] => false
  | c :: cs => ['(', 'g', 'd', 'b', ')'].isPrefixOf (c :: cs) || hasGdbPrompt cs

/-- What `MI2.onOutput` does with one complete line. -/
inductive LineClass where
  | consoleOut
  | dropped
  | record
deriving DecidableEq

/-- The per-line branch of `MI2.onOutput`: `couldBeOutput` lines are logged
as console output unless they match the GDB prompt pattern (then dropped);
the rest are parsed as protocol records. -/
def classifyLine (l : List Char) : LineClass :=
  if couldBeOutput l then
    if hasGdbPrompt l then .dropped else .consoleOut
  else .record

/-- `str.split('\n')` (JS semantics: the empty string splits to one empty
fragment). -/
def splitOnNL : List Char → List (List Char)
  | [] => [[]]
  | c :: cs =>
    if c = '\n' then [] :: splitOnNL cs
    else
      match splitOnNL cs with
      | [] => [[c]]
      | h :: t => (c :: h) :: t

/-- `buffer.lastIndexOf('\n')` as an optional index. -/
def lastIdxNL : List Char → Option Nat
  | [] => none
  | c :: cs =>
    match lastIdxNL cs with
    | some i => some (i + 1)
    | none => if c = '\n' then some 0 else none

/-- The observable effect of one `MI2.stdout(data)` call: the buffer left
behind, the complete lines handed to `onOutput`'s per-line loop, and the
partial text flushed by `onOutputPartial`, if any. -/
structure StdoutEffects where
  newBuffer : List Char
  outputLines : List (List Char)
  partialFlush : Option (List Char)
deriving DecidableEq

/-- `MI2.stdout` for one data fragment, starting from `buffer`. -/
def stdoutStep (buffer data : List Char) : StdoutEffects :=
  let b := buffer ++ data
  match lastIdxNL b with
  | some e =>
    let rest := b.drop (e + 1)
    if rest.isEmpty then ⟨rest, splitOnNL (b.take e), none⟩
    else if couldBeOutput rest then ⟨[], splitOnNL (b.take e), some rest⟩
    else ⟨rest, splitOnNL (b.take e), none⟩
  | none =>
    if b.isEmpty then ⟨b, [], none⟩
    else if couldBeOutput b then ⟨[], [], some b⟩
    else ⟨b, [], none⟩

/-- The non-output pattern in the words of the specification: an optional
run of digits or the word `undefined`, followed by one of `* + =`, at the
start of the line; or one of `~ @ & ^` somewhere in the line (the
specification instead required the line to start with one of these). -/
def specRecordPattern (l : List Char) : Prop :=
  (∃ ds c rest, l = ds ++ c :: rest ∧ (∀ d ∈ ds, d.isDigit) ∧
    (c = '*' ∨ c = '+' ∨ c = '=')) ∨
  (∃ c rest, l = undefinedChars ++ c :: rest ∧ (c = '*' ∨ c = '+' ∨ c = '=')) ∨
  (∃ c ∈ l, c = '~' ∨ c = '@' ∨ c = '&' ∨ c = '^')

/-- The claim's reading of the pattern, with all alternatives anchored at
the start of the line. -/
def claimNonOutputStart (l : List Char) : Bool :=
  headIsRecordMark (l.dropWhile Char.isDigit) ||
  (undefinedChars.isPrefixOf l && headIsRecordMark (l.drop undefinedChars.length)) ||
  (match l with
   | [] => false
   | c :: _ => c = '~' || c = '@' || c = '&' || c = '^')

theorem dropWhile_digits_append (ds : List Char) (c : Char) (rest : List Char)
    (hds : ∀ d ∈ ds, d.isDigit) (hnd : c.isDigit = false) :
    (ds ++ c :: rest).dropWhile Char.isDigit = c :: rest := by
  induction ds with
  | nil => simp [List.dropWhile_cons, hnd]
  | cons d ds ih =>
    have hd := hds d (by simp)
    simp only [List.cons_append, List.dropWhile_cons, hd, if_true]
    exact ih (fun x hx => hds x (by simp [hx]))

theorem headIsRecordMark_dropWhile_iff (l : List Char) :
    headIsRecordMark (l.dropWhile Char.isDigit) = true ↔
      ∃ ds c rest, l = ds ++ c :: rest ∧ (∀ d ∈ ds, d.isDigit) ∧
        (c = '*' ∨ c = '+' ∨ c = '=') := by
  constructor
  · intro h
    match hdw : l.dropWhile Char.isDigit with
    | [] => rw [hdw] at h; exact absurd h (by simp [headIsRecordMark])
    | c :: rest =>
      refine ⟨l.takeWhile Char.isDigit, c, rest, ?_, ?_, ?_⟩
      · conv_lhs => rw [← List.takeWhile_append_dropWhile Char.isDigit l]
        rw [hdw]
      · exact fun d hd => List.mem_takeWhile_imp hd
      · rw [hdw] at h
        simpa [headIsRecordMark, or_assoc] using h
  · rintro ⟨ds, c, rest, hl, hds, hc⟩
    have hnd : Char.isDigit c = false := by
      rcases hc with h | h | h <;> subst h <;> decide
    rw [hl, dropWhile_digits_append ds c rest hds hnd]
    rcases hc with h | h | h <;> subst h <;> simp [headIsRecordMark]

theorem undefined_branch_iff (l : List Char) :
    (undefinedChars.isPrefixOf l &&
      headIsRecordMark (l.drop undefinedChars.length)) = true ↔
      ∃ c rest, l = undefinedChars ++ c :: rest ∧
        (c = '*' ∨ c = '+' ∨ c = '=') := by
  constructor
  · intro h
    rw [Bool.and_eq_true] at h
    obtain ⟨t, ht⟩ := List.isPrefixOf_iff_prefix.mp h.1
    subst ht
    rw [List.drop_left undefinedChars t] at h
    cases t with
    | nil => exact absurd h.2 (by simp [headIsRecordMark])
    | cons c rest =>
      exact ⟨c, rest, rfl, by simpa [headIsRecordMark, or_assoc] using h.2⟩
  · rintro ⟨c, rest, hl, hc⟩
    subst hl
    rw [Bool.and_eq_true]
    constructor
    · exact List.isPrefixOf_iff_prefix.mpr ⟨c :: rest, rfl⟩
    · rw [List.drop_left undefinedChars (c :: rest)]
      rcases hc with h | h | h <;> subst h <;> simp [headIsRecordMark]

theorem jsNonOutputTest_iff (l : List Char) :
    jsNonOutputTest l = true ↔ specRecordPattern l := by
  unfold jsNonOutputTest specRecordPattern
  rw [Bool.or_eq_true, Bool.or_eq_true]
  rw [headIsRecordMark_dropWhile_iff, undefined_branch_iff]
  constructor
  · rintro ((h | h) | h)
    · exact Or.inl h
    · exact Or.inr (Or.inl h)
    · refine Or.inr (Or.inr ?_)
      rw [List.any_eq_true] at h
      obtain ⟨c, hc, hp⟩ := h
      exact ⟨c, hc, by simpa [or_assoc] using hp⟩
  · rintro (h | h | ⟨c, hc, hp⟩)
    · exact Or.inl (Or.inl h)
    · exact Or.inl (Or.inr h)
    · refine Or.inr ?_
      rw [List.any_eq_true]
      exact ⟨c, hc, by simpa [or_assoc] using hp⟩

theorem lastIdxNL_eq_none (l : List Char) (h : '\n' ∉ l) : lastIdxNL l = none := by
  induction l with
  | nil => rfl
  | cons c cs ih =>
    have hc : ¬(c = '\n') := fun hh => h (by simp [hh])
    have hcs : '\n' ∉ cs := fun hh => h (by simp [hh])
    simp [lastIdxNL, ih hcs, hc]

theorem lastIdxNL_append (complete rest : List Char) (h : '\n' ∉ rest) :
    lastIdxNL (complete ++ '\n' :: rest) = some complete.length := by
  induction complete with
  | nil => simp [lastIdxNL, lastIdxNL_eq_none rest h]
  | cons c cs ih => simp [lastIdxNL, ih]

end Renode

namespace Renode

theorem drop_len_succ_append (l₁ : List Char) (c : Char) (l₂ : List Char) :
    (l₁ ++ c :: l₂).drop (l₁.length + 1) = l₂ := by
  exact @List.drop_append Char l₁ (c :: l₂) 1

theorem stdoutStep_eq_of_split (buffer data complete rest : List Char)
    (hb : buffer ++ data = complete ++ '\n' :: rest) (hrest : '\n' ∉ rest) :
    stdoutStep buffer data =
      if !rest.isEmpty && couldBeOutput rest
      then ⟨[], splitOnNL complete, some rest⟩
      else ⟨rest, splitOnNL complete, none⟩ := by
  have hidx : lastIdxNL (buffer ++ data) = some complete.length := by
    rw [hb]; exact lastIdxNL_append complete rest hrest
  have htake : (buffer ++ data).take complete.length = complete := by
    rw [hb]; exact List.take_left complete ('\n' :: rest)
  have hdrop : (buffer ++ data).drop (complete.length + 1) = rest := by
    rw [hb]; exact drop_len_succ_append complete '\n' rest
  simp only [stdoutStep, hidx, htake, hdrop]
  by_cases h1 : rest.isEmpty
  · have h0 : rest = [] := by simpa using h1
    simp [h1, h0]
  · by_cases h2 : couldBeOutput rest <;> simp [h1, h2]

theorem stdoutStep_eq_of_noNL (buffer data : List Char)
    (h : '\n' ∉ buffer ++ data) :
    stdoutStep buffer data =
      if !(buffer ++ data).isEmpty && couldBeOutput (buffer ++ data)
      then ⟨[], [], some (buffer ++ data)⟩
      else ⟨buffer ++ data, [], none⟩ := by
  have hidx : lastIdxNL (buffer ++ data) = none := lastIdxNL_eq_none _ h
  simp only [stdoutStep, hidx]
  by_cases h1 : (buffer ++ data).isEmpty
  · simp [h1]
  · by_cases h2 : couldBeOutput (buffer ++ data) <;> simp [h1, h2]

theorem classifyLine_eq (line : List Char) :
    classifyLine line =
      if jsNonOutputTest line then .record
      else if hasGdbPrompt line then .dropped else .consoleOut := by
  simp only [classifyLine, couldBeOutput]
  by_cases h : jsNonOutputTest line <;> simp [h]

end Renode

/-- C8 (counterexample): a fragment with no newline whose text looks like
console output — `hello` — is not retained in the buffer as the claim
requires: `onOutputPartial` logs it at once and `stdout` clears the buffer.
Moreover the line `a~b` is classified as a protocol record although it does
not match the claim's start-anchored pattern (`~` may occur anywhere). -/
theorem Renode.stdout_partial_flushed_counterexample :
    (stdoutStep [] ['h', 'e', 'l', 'l', 'o']).newBuffer = [] ∧
    (stdoutStep [] ['h', 'e', 'l', 'l', 'o']).partialFlush =
      some ['h', 'e', 'l', 'l', 'o'] ∧
    (['h', 'e', 'l', 'l', 'o'] : List Char) ≠ [] ∧
    classifyLine ['a', '~', 'b'] = .record ∧
    claimNonOutputStart ['a', '~', 'b'] = false := by
  decide

/-- C8 (amended): fragments are appended to the buffer, and on each fragment
exactly the complete lines up to the last newline are split off and handled;
the trailing partial line is retained in the buffer only when it could be a
protocol record — a partial line that looks like console output is flushed
at once and the buffer cleared.  A complete line is treated as a protocol
record precisely when optional digits or `undefined` followed by one of
`* + =` start the line, or one of `~ @ & ^` occurs anywhere in it; otherwise
it is forwarded verbatim as console output, except that lines containing the
GDB prompt are dropped. -/
theorem Renode.stdout_buffering_classification
    (buffer data complete rest line : List Char) :
    (buffer ++ data = complete ++ '\n' :: rest → '\n' ∉ rest →
      (stdoutStep buffer data).outputLines = splitOnNL complete ∧
      ((rest = [] ∨ couldBeOutput rest = false) →
        (stdoutStep buffer data).newBuffer = rest ∧
        (stdoutStep buffer data).partialFlush = none) ∧
      (rest ≠ [] → couldBeOutput rest = true →
        (stdoutStep buffer data).newBuffer = [] ∧
        (stdoutStep buffer data).partialFlush = some rest)) ∧
    ('\n' ∉ buffer ++ data →
      (stdoutStep buffer data).outputLines = [] ∧
      ((buffer ++ data = [] ∨ couldBeOutput (buffer ++ data) = false) →
        (stdoutStep buffer data).newBuffer = buffer ++ data ∧
        (stdoutStep buffer data).partialFlush = none) ∧
      (buffer ++ data ≠ [] → couldBeOutput (buffer ++ data) = true →
        (stdoutStep buffer data).newBuffer = [] ∧
        (stdoutStep buffer data).partialFlush = some (buffer ++ data))) ∧
    (classifyLine line = .record ↔ specRecordPattern line) ∧
    (classifyLine line = .dropped ↔
      ¬specRecordPattern line ∧ hasGdbPrompt line = true) ∧
    (classifyLine line = .consoleOut ↔
      ¬specRecordPattern line ∧ hasGdbPrompt line = false) := by
  refine ⟨fun hb hrest => ?_, fun hnb => ?_, ?_, ?_, ?_⟩
  · rw [stdoutStep_eq_of_split buffer data complete rest hb hrest]
    refine ⟨?_, fun hcase => ?_, fun hne hcbo => ?_⟩
    · split <;> rfl
    · rcases hcase with h | h
      · subst h; simp
      · simp [h]
    · simp [hcbo, hne]
  · rw [stdoutStep_eq_of_noNL buffer data hnb]
    refine ⟨?_, fun hcase => ?_, fun hne hcbo => ?_⟩
    · split <;> rfl
    · rcases hcase with h | h
      · simp [h]
      · simp [h]
    · simp [hcbo, hne]
  · rw [classifyLine_eq]
    by_cases h1 : jsNonOutputTest line
    · simp [h1, (jsNonOutputTest_iff line).mp h1]
    · have h2 : ¬specRecordPattern line := fun hs =>
        h1 ((jsNonOutputTest_iff line).mpr hs)
      by_cases h3 : hasGdbPrompt line <;> simp [h1, h2, h3]
  · rw [classifyLine_eq]
    by_cases h1 : jsNonOutputTest line
    · simp [h1, (jsNonOutputTest_iff line).mp h1]
    · have h2 : ¬specRecordPattern line := fun hs =>
        h1 ((jsNonOutputTest_iff line).mpr hs)
      by_cases h3 : hasGdbPrompt line <;> simp [h1, h2, h3]
  · rw [classifyLine_eq]
    by_cases h1 : jsNonOutputTest line
    · simp [h1, (jsNonOutputTest_iff line).mp h1]
    · have h2 : ¬specRecordPattern line := fun hs =>
        h1 ((jsNonOutputTest_iff line).mpr hs)
      by_cases h3 : hasGdbPrompt line <;> simp [h1, h2, h3]

namespace Renode

/-! ## MI command correlation

    sendCommand(command, suppressFailure = false) {
      const sel = this.currentToken++;
      return new Promise((resolve, reject) => {
        this.handlers[sel] = (node) => { ... };
        this.sendRaw(sel + '-' + command);
      });
    }

with `currentToken` initialized to 1.  In `onOutput`:

    if (parsed.token !== undefined) {
      if (this.handlers[parsed.token]) {
        this.handlers[parsed.token](parsed);
        delete this.handlers[parsed.token];
        handled = true;
      }
    }

In `connectWs` the transport close listener is

    this.socket.addEventListener('close', () => this.emit('quit'));

and nothing else touches `this.handlers` on close.
-/

/-- A parsed MI line as the correlator sees it: its optional token and a
body distinguishing one record from another. -/
structure MIRecord where
  token : Option Nat
  body : Nat
deriving DecidableEq

/-- The correlator state: the token counter, the tokens with a registered
handler (in registration order), and the deliveries already made — `(t, r)`
means the handler registered for token `t` was fired with record `r`. -/
structure MIState where
  currentToken : Nat
  pending : List Nat
  delivered : List (Nat × MIRecord)
deriving DecidableEq

/-- The fields of a fresh `MI2` instance. -/
def initMIState : MIState := ⟨1, [], []⟩

/-- `MI2.sendCommand`: allocate the next token, register its handler, write
`sel + '-' + command` to the transport. -/
def sendCommand (s : MIState) (command : String) : MIState × Nat × String :=
  (⟨s.currentToken + 1, s.pending ++ [s.currentToken], s.delivered⟩,
   s.currentToken, toString s.currentToken ++ "-" ++ command)

/-- A batch of `sendCommand` calls, returning the `(token, wire text)` pair
of each. -/
def sendCommands (s : MIState) : List String → MIState × List (Nat × String)
  | [] => (s, [])
  | c :: cs =>
    let r := sendCommand s c
    let r2 := sendCommands r.1 cs
    (r2.1, r.2 :: r2.2)

/-- The token-dispatch step of `MI2.onOutput` for one parsed record: fire
and delete the handler registered for the record's token, if any. -/
def dispatchRecord (s : MIState) (r : MIRecord) : MIState :=
  match r.token with
  | none => s
  | some t =>
    if t ∈ s.pending then
      ⟨s.currentToken, s.pending.erase t, s.delivered ++ [(t, r)]⟩
    else s

/-- Records arriving from the transport, in arrival order. -/
def dispatchAll (s : MIState) (rs : List MIRecord) : MIState :=
  rs.foldl dispatchRecord s

/-- The `close` listener installed by `MI2.connectWs`: emit `quit`; the
state — `handlers` included — is untouched. -/
def miOnClose (s : MIState) : MIState × List String :=
  (s, ["quit"])

theorem sendCommands_spec (cmds : List String) (s : MIState) :
    (sendCommands s cmds).1 =
      ⟨s.currentToken + cmds.length,
       s.pending ++ List.range' s.currentToken cmds.length,
       s.delivered⟩ ∧
    (sendCommands s cmds).2 =
      List.zipWith (fun t c => (t, toString t ++ "-" ++ c))
        (List.range' s.currentToken cmds.length) cmds := by
  induction cmds generalizing s with
  | nil => simp [sendCommands]
  | cons c cs ih =>
    obtain ⟨ih1, ih2⟩ := ih ⟨s.currentToken + 1, s.pending ++ [s.currentToken],
      s.delivered⟩
    constructor
    · rw [show (sendCommands s (c :: cs)).1 =
        (sendCommands (sendCommand s c).1 cs).1 from rfl]
      rw [sendCommand, ih1]
      simp [List.range'_succ, Nat.add_assoc, Nat.add_comm 1 cs.length]
    · rw [show (sendCommands s (c :: cs)).2 =
        (sendCommand s c).2 :: (sendCommands (sendCommand s c).1 cs).2 from rfl]
      rw [sendCommand, ih2]
      simp [List.range'_succ]

theorem dispatchRecord_none (s : MIState) (r : MIRecord) (h : r.token = none) :
    dispatchRecord s r = s := by
  unfold dispatchRecord
  rw [h]

theorem dispatchRecord_some_mem (s : MIState) (r : MIRecord) (t : Nat)
    (h : r.token = some t) (ht : t ∈ s.pending) :
    dispatchRecord s r =
      ⟨s.currentToken, s.pending.erase t, s.delivered ++ [(t, r)]⟩ := by
  unfold dispatchRecord
  rw [h]
  exact if_pos ht

theorem dispatchRecord_some_notMem (s : MIState) (r : MIRecord) (t : Nat)
    (h : r.token = some t) (ht : t ∉ s.pending) :
    dispatchRecord s r = s := by
  unfold dispatchRecord
  rw [h]
  exact if_neg ht

theorem dispatchAll_cons (s : MIState) (r : MIRecord) (rs : List MIRecord) :
    dispatchAll s (r :: rs) = dispatchAll (dispatchRecord s r) rs := rfl

theorem dispatchRecord_delivered_sub (s : MIState) (r : MIRecord) (t : Nat)
    (q : MIRecord) (h : (t, q) ∈ (dispatchRecord s r).delivered) :
    (t, q) ∈ s.delivered ∨ (q = r ∧ r.token = some t) := by
  cases hr : r.token with
  | none =>
    rw [dispatchRecord_none s r hr] at h
    exact Or.inl h
  | some u =>
    by_cases hu : u ∈ s.pending
    · rw [dispatchRecord_some_mem s r u hr hu] at h
      simp only [List.mem_append, List.mem_singleton] at h
      rcases h with h | h
      · exact Or.inl h
      · simp only [Prod.mk.injEq] at h
        exact Or.inr ⟨h.2, by rw [h.1]⟩
    · rw [dispatchRecord_some_notMem s r u hr hu] at h
      exact Or.inl h

theorem dispatchAll_delivered_sub (rs : List MIRecord) :
    ∀ (s : MIState) (t : Nat) (q : MIRecord),
      (t, q) ∈ (dispatchAll s rs).delivered →
      (t, q) ∈ s.delivered ∨ (q ∈ rs ∧ q.token = some t) := by
  induction rs with
  | nil => exact fun s t q h => Or.inl h
  | cons r rs ih =>
    intro s t q h
    rw [dispatchAll_cons] at h
    rcases ih (dispatchRecord s r) t q h with h1 | h1
    · rcases dispatchRecord_delivered_sub s r t q h1 with h2 | h2
      · exact Or.inl h2
      · exact Or.inr ⟨by simp [h2.1], h2.1 ▸ h2.2⟩
    · exact Or.inr ⟨by simp [h1.1], h1.2⟩

/-- The correlator invariant: pending tokens are distinct, delivered tokens
are distinct, and no token is both pending and delivered. -/
def MIInv (s : MIState) : Prop :=
  s.pending.Nodup ∧ (s.delivered.map Prod.fst).Nodup ∧
    ∀ t ∈ s.delivered.map Prod.fst, t ∉ s.pending

theorem dispatchRecord_inv (s : MIState) (r : MIRecord) (h : MIInv s) :
    MIInv (dispatchRecord s r) := by
  obtain ⟨h1, h2, h3⟩ := h
  cases hr : r.token with
  | none =>
    rw [dispatchRecord_none s r hr]
    exact ⟨h1, h2, h3⟩
  | some u =>
    by_cases hu : u ∈ s.pending
    · rw [dispatchRecord_some_mem s r u hr hu]
      refine ⟨h1.erase u, ?_, ?_⟩
      · show ((s.delivered ++ [(u, r)]).map Prod.fst).Nodup
        simp only [List.map_append, List.map_cons, List.map_nil]
        rw [List.nodup_append]
        refine ⟨h2, List.nodup_singleton u, ?_⟩
        intro a ha hb
        rw [List.mem_singleton] at hb
        exact h3 a ha (hb ▸ hu)
      · intro t ht htp
        simp only [List.map_append, List.map_cons, List.map_nil,
          List.mem_append, List.mem_singleton] at ht
        have htp2 : t ∈ s.pending := ((List.Nodup.mem_erase_iff h1).mp htp).2
        rcases ht with ht | ht
        · exact h3 t ht htp2
        · exact ((List.Nodup.mem_erase_iff h1).mp htp).1 ht
    · rw [dispatchRecord_some_notMem s r u hr hu]
      exact ⟨h1, h2, h3⟩

theorem dispatchAll_inv (rs : List MIRecord) (s : MIState) (h : MIInv s) :
    MIInv (dispatchAll s rs) := by
  induction rs generalizing s with
  | nil => exact h
  | cons r rs ih => exact ih (dispatchRecord s r) (dispatchRecord_inv s r h)

theorem dispatchAll_delivered_mono (rs : List MIRecord) (s : MIState) :
    ∃ d, (dispatchAll s rs).delivered = s.delivered ++ d := by
  induction rs generalizing s with
  | nil => exact ⟨[], by simp [dispatchAll]⟩
  | cons r rs ih =>
    obtain ⟨d, hd⟩ := ih (dispatchRecord s r)
    rw [dispatchAll_cons]
    cases hr : r.token with
    | none =>
      rw [dispatchRecord_none s r hr] at hd
      rw [dispatchRecord_none s r hr]
      exact ⟨d, hd⟩
    | some u =>
      by_cases hu : u ∈ s.pending
      · rw [dispatchRecord_some_mem s r u hr hu] at hd
        rw [dispatchRecord_some_mem s r u hr hu]
        refine ⟨(u, r) :: d, ?_⟩
        rw [hd]
        simp
      · rw [dispatchRecord_some_notMem s r u hr hu] at hd
        rw [dispatchRecord_some_notMem s r u hr hu]
        exact ⟨d, hd⟩

theorem dispatchRecord_pending_mem (s : MIState) (r : MIRecord) (t : Nat)
    (ht : t ∈ s.pending) (hr : r.token ≠ some t) :
    t ∈ (dispatchRecord s r).pending := by
  cases hro : r.token with
  | none =>
    rw [dispatchRecord_none s r hro]
    exact ht
  | some u =>
    by_cases hu : u ∈ s.pending
    · rw [dispatchRecord_some_mem s r u hro hu]
      have hne : t ≠ u := fun he => hr (by rw [hro, he])
      show t ∈ s.pending.erase u
      exact (List.mem_erase_of_ne hne).mpr ht
    · rw [dispatchRecord_some_notMem s r u hro hu]
      exact ht

theorem dispatchAll_completes (rs : List MIRecord) :
    ∀ (s : MIState) (r : MIRecord) (t : Nat),
      (rs.filterMap MIRecord.token).Nodup → r ∈ rs →
      r.token = some t → t ∈ s.pending →
      (t, r) ∈ (dispatchAll s rs).delivered := by
  induction rs with
  | nil =>
    intro s r t _ hmem
    cases hmem
  | cons r0 rs ih =>
    intro s r t hnd hmem htok hp
    rw [List.mem_cons] at hmem
    rw [dispatchAll_cons]
    rcases hmem with hmem | hmem
    · subst hmem
      rw [dispatchRecord_some_mem s r t htok hp]
      obtain ⟨d, hd⟩ := dispatchAll_delivered_mono rs
        ⟨s.currentToken, s.pending.erase t, s.delivered ++ [(t, r)]⟩
      rw [hd]
      simp
    · have hnd2 : (rs.filterMap MIRecord.token).Nodup := by
        rw [List.filterMap_cons] at hnd
        cases h0 : r0.token with
        | none => rwa [h0] at hnd
        | some u => rw [h0] at hnd; exact hnd.of_cons
      have hr0 : r0.token ≠ some t := by
        intro he
        rw [List.filterMap_cons, he] at hnd
        have hmem2 : t ∈ rs.filterMap MIRecord.token :=
          List.mem_filterMap.mpr ⟨r, hmem, htok⟩
        exact (List.nodup_cons.mp hnd).1 hmem2
      exact ih (dispatchRecord s r0) r t hnd2 hmem htok
        (dispatchRecord_pending_mem s r0 t hp hr0)

theorem dispatchRecord_noop_of_delivered (s : MIState) (r : MIRecord) (t : Nat)
    (hinv : MIInv s) (htok : r.token = some t)
    (hdel : t ∈ s.delivered.map Prod.fst) :
    dispatchRecord s r = s := by
  have hnp : t ∉ s.pending := hinv.2.2 t hdel
  exact dispatchRecord_some_notMem s r t htok hnp

end Renode

namespace Renode

theorem zipWith_fst_tokens (l₁ : List Nat) (l₂ : List String)
    (h : l₁.length ≤ l₂.length) :
    (List.zipWith (fun t c => (t, toString t ++ "-" ++ c)) l₁ l₂).map
      Prod.fst = l₁ := by
  induction l₁ generalizing l₂ with
  | nil => simp
  | cons a as ih =>
    cases l₂ with
    | nil => simp at h
    | cons b bs => simp [ih bs (by simpa using h)]

end Renode

/-- C1: from a fresh `MI2`, a batch of `sendCommand` calls assigns the
distinct, monotonically increasing tokens 1, 2, … and writes
`<token>-<command>` for each; then for any arrival order of result records
with pairwise distinct tokens: every delivery hands a handler exactly the
record bearing its own token, tokens are delivered at most once, every
pending token whose record arrives is delivered that very record, and a
record whose token was already consumed fires nothing (the handler was
deleted). -/
theorem Renode.mi_token_correlation (cmds : List String) (rs : List MIRecord)
    (hnd : (rs.filterMap MIRecord.token).Nodup) :
    (sendCommands initMIState cmds).2 =
      List.zipWith (fun t c => (t, toString t ++ "-" ++ c))
        (List.range' 1 cmds.length) cmds ∧
    ((sendCommands initMIState cmds).2.map Prod.fst).Nodup ∧
    (∀ t r,
      (t, r) ∈ (dispatchAll (sendCommands initMIState cmds).1 rs).delivered →
      r.token = some t ∧ r ∈ rs) ∧
    ((dispatchAll (sendCommands initMIState cmds).1 rs).delivered.map
      Prod.fst).Nodup ∧
    (∀ r t, r ∈ rs → r.token = some t →
      t ∈ (sendCommands initMIState cmds).1.pending →
      (t, r) ∈ (dispatchAll
        (sendCommands initMIState cmds).1 rs).delivered) ∧
    (∀ r t, r.token = some t →
      t ∈ (dispatchAll (sendCommands initMIState cmds).1 rs).delivered.map
        Prod.fst →
      dispatchRecord (dispatchAll (sendCommands initMIState cmds).1 rs) r =
        dispatchAll (sendCommands initMIState cmds).1 rs) := by
  obtain ⟨hS0, hW0⟩ := sendCommands_spec cmds initMIState
  have hS : (sendCommands initMIState cmds).1 =
      ⟨1 + cmds.length, List.range' 1 cmds.length, []⟩ := by
    rw [hS0]; rfl
  have hW : (sendCommands initMIState cmds).2 =
      List.zipWith (fun t c => (t, toString t ++ "-" ++ c))
        (List.range' 1 cmds.length) cmds := by
    rw [hW0]; rfl
  have hnodup : (List.range' 1 cmds.length).Nodup := by
    simp [List.nodup_range']
  have hinv : MIInv (sendCommands initMIState cmds).1 := by
    rw [hS]
    exact ⟨hnodup, List.nodup_nil, by simp⟩
  have hinv2 : MIInv (dispatchAll (sendCommands initMIState cmds).1 rs) :=
    dispatchAll_inv rs _ hinv
  refine ⟨hW, ?_, ?_, hinv2.2.1, ?_, ?_⟩
  · rw [hW]
    rw [zipWith_fst_tokens _ _ (by simp)]
    exact hnodup
  · intro t r hmem
    rcases dispatchAll_delivered_sub rs _ t r hmem with h | h
    · rw [hS] at h
      cases h
    · exact ⟨h.2, h.1⟩
  · intro r t hmem htok hp
    exact dispatchAll_completes rs _ r t hnd hmem htok hp
  · intro r t htok hdel
    exact dispatchRecord_noop_of_delivered _ r t hinv2 htok hdel

/-- C1 witness: two commands sent concurrently, with the result records
arriving in reversed token order; each future is completed with the record
bearing its own token. -/
theorem Renode.mi_token_correlation_witness :
    (([⟨some 2, 20⟩, ⟨some 1, 10⟩] : List MIRecord).filterMap
      MIRecord.token).Nodup ∧
    (1, (⟨some 1, 10⟩ : MIRecord)) ∈
      (dispatchAll (sendCommands initMIState ["cmd-a", "cmd-b"]).1
        [⟨some 2, 20⟩, ⟨some 1, 10⟩]).delivered ∧
    (2, (⟨some 2, 20⟩ : MIRecord)) ∈
      (dispatchAll (sendCommands initMIState ["cmd-a", "cmd-b"]).1
        [⟨some 2, 20⟩, ⟨some 1, 10⟩]).delivered := by
  refine ⟨by decide, ?_, ?_⟩
  · exact (Renode.mi_token_correlation ["cmd-a", "cmd-b"]
      [⟨some 2, 20⟩, ⟨some 1, 10⟩] (by decide)).2.2.2.2.1
      ⟨some 1, 10⟩ 1 (by decide) rfl (by decide)
  · exact (Renode.mi_token_correlation ["cmd-a", "cmd-b"]
      [⟨some 2, 20⟩, ⟨some 1, 10⟩] (by decide)).2.2.2.2.1
      ⟨some 2, 20⟩ 2 (by decide) rfl (by decide)

/-- C9 (counterexample): with token 1 still pending when the MI transport
closes, the close listener installed by `connectWs` emits `quit` and nothing
else — the handler for token 1 stays registered and no error is delivered
to its future, contradicting the claim that every pending token is
discarded with an error. -/
theorem Renode.miClose_pending_left_counterexample :
    miOnClose ⟨2, [1], []⟩ = (⟨2, [1], []⟩, ["quit"]) ∧
    1 ∈ (miOnClose ⟨2, [1], []⟩).1.pending ∧
    (miOnClose ⟨2, [1], []⟩).1.delivered = [] := by
  exact ⟨rfl, by decide, rfl⟩

/-- C9 (amended): when the MI transport closes, the client only emits the
`quit` event; the handler table is untouched — every token pending at close
stays pending, nothing is delivered, and the MI client itself never fails
those futures. -/
theorem Renode.miClose_keeps_handlers (s : MIState) :
    (miOnClose s).1 = s ∧ (miOnClose s).2 = ["quit"] ∧
    ∀ t, t ∈ s.pending → t ∈ (miOnClose s).1.pending :=
  ⟨rfl, rfl, fun _ ht => ht⟩
